import Mathlib

/-!
# Verification of the multi-repository orchestration logic of evg-module-manager

A shallow embedding, translated from the Python sources, of the module/commit/branch/
pull-request orchestration services: data model (`EvgModule`, `Repository`, `Manifest`),
the git fan-out operations of `ModulesService`, the commit selection of
`GitCommitService`, the branch flows of `GitBranchService`, and the pull-request
creation of `PullRequestService`.  External effects (git subprocess calls, filesystem
checks) are passed in as explicit parameters, and effectful flows return the sequence
of performed calls so that ordering and partial-failure behaviour can be stated.
-/

namespace Emm

/-- A module declared in the evergreen project configuration; mirrors the fields of
`shrub.v3.evg_project.EvgModule` that the code uses: `name`, `prefix` (rendered here
as `prefixDir`), `repo` and `branch`. -/
structure EvgModule where
  name : String
  prefixDir : String
  repo : String
  branch : String
  deriving DecidableEq

/-- `BASE_REPO` from `emm/models/repository.py`. -/
def BASE_REPO : String := "base"

/-- `Repository` from `emm/models/repository.py`: a unit of orchestration.
`directory = none` stands for the process working directory (the base repository). -/
structure Repository where
  name : String
  directory : Option String
  targetBranch : String
  deriving DecidableEq

/-- `Repository.base_repo` from `emm/models/repository.py`. -/
def Repository.baseRepo (branch : String) : Repository :=
  { name := BASE_REPO, directory := none, targetBranch := branch }

/-- `Repository.from_module` from `emm/models/repository.py`: the directory is
`module.prefix / module.name`. -/
def Repository.fromModule (m : EvgModule) : Repository :=
  { name := m.name
    directory := some (m.prefixDir ++ "/" ++ m.name)
    targetBranch := m.branch }

/-- Modelled from the spec: `ModulesService.collect_repositories` is absent from the
source snapshot (only its callers in `git_commit_service.py`, `git_branch_service.py`
and `pull_request_service.py`, and its mocks in the tests, are present).  Per spec
section 4.1 it returns one `Repository` per enabled module plus exactly one `"base"`
entry, with the base repository appended last. -/
def collectRepositories (enabledModules : List EvgModule) (baseBranch : String) :
    List Repository :=
  enabledModules.map Repository.fromModule ++ [Repository.baseRepo baseBranch]

/-! ## Status parsing and commit selection (`GitCommitService`) -/

/-- `GitCommitService.has_commitable_change` (git_commit_service.py lines 149-161),
with the repository's short-status lines (python `get_status_lines`) passed in
explicitly. -/
def hasCommitableChange (add : Bool) (statusLines : List String) : Bool :=
  let items := statusLines.filter (fun line => !line.startsWith "??")
  if add then decide (0 < items.length)
  else decide (0 < (items.filter (fun item => !item.startsWith " ")).length)

/-- `GitCommitService.get_touched_files` (git_commit_service.py lines 138-147):
each short-status line with its two-character status prefix dropped and the remainder
stripped of surrounding whitespace. -/
def getTouchedFiles (statusLines : List String) : List String :=
  statusLines.map (fun tf => (tf.drop 2).trim)

/-- `GitCommitService.add_to_repo` (git_commit_service.py lines 49-60): the file list
handed to the underlying `git add`.  `filesInRepo` is the gitignore-aware `ls_files`
listing computed by `files_to_track` (lines 89-110); python builds a `set` from it and
tests membership, modelled here by list membership. -/
def addToRepo (statusLines : List String) (filesInRepo : List String) : List String :=
  (getTouchedFiles statusLines).filter (fun tf => filesInRepo.contains tf)

/-- `GitCommitService.restore_from_repo` (git_commit_service.py lines 73-87): the file
list handed to the underlying `git restore`; computed exactly as in `add_to_repo`. -/
def restoreFromRepo (statusLines : List String) (filesInRepo : List String) :
    List String :=
  (getTouchedFiles statusLines).filter (fun tf => filesInRepo.contains tf)

/-- `GitCommitService.commit` (git_commit_service.py lines 112-127): every repository
returned by `collect_repositories` — the base repository included — is kept iff
`has_commitable_change` holds for it, each kept repository is committed, and the names
of the kept repositories are returned.  `message` and `amend` are forwarded to the git
commit invocation and do not influence selection. -/
def commitAll (_message : Option String) (_amend : Bool) (add : Bool)
    (status : Repository → List String) (enabledModules : List EvgModule)
    (baseBranch : String) : List String :=
  ((collectRepositories enabledModules baseBranch).filter
      (fun repo => hasCommitableChange add (status repo))).map (fun repo => repo.name)

/-! ## Manifest resolution (`ModulesService`) -/

/-- An evergreen manifest as used by the code (`evergreen.Manifest`): an optional
mapping from module name to the pinned revision. -/
structure Manifest where
  modules : Option (List (String × String))
  deriving DecidableEq

/-- Manifest revision resolution as performed by `ModulesService.sync_module`
(modules_service.py lines 161-170) and by `ModulesService.git_operate_modules`
(lines 213-223): the messages of the raised `ValueError`s are the `Except.error`
values. -/
def resolveModuleRevision (manifest : Manifest) (moduleName : String) :
    Except String String :=
  match manifest.modules with
  | none => Except.error "Modules not found in manifest"
  | some manifestModules =>
    match manifestModules.lookup moduleName with
    | none => Except.error ("Module not found in manifest: " ++ moduleName)
    | some rev => Except.ok rev

/-! ## Fanned-out git operations (`ModulesService`) -/

/-- `GitAction` from `emm/services/git_service.py`: the operations dispatched by
`perform_git_action`. -/
inductive GitAction where
  | checkout
  | rebase
  | merge
  deriving DecidableEq

/-- The string value of a `GitAction` (the python `str`-enum values), used when the
action is interpolated into an error message. -/
def GitAction.value : GitAction → String
  | .checkout => "checkout"
  | .rebase => "rebase"
  | .merge => "merge"

/-- The message built by `ModulesService.attempt_git_operation`
(modules_service.py line 198); the enum's rendering inside the f-string is abbreviated
to its value. -/
def attemptErrorText (operation : GitAction) (revision : String) : String :=
  "Encountered error performing \x27" ++ operation.value ++ "\x27 on \x27" ++
    revision ++ "\x27"

/-- `ModulesService.attempt_git_operation` (modules_service.py lines 176-199): the
`ProcessExecutionError` of the underlying git call — whether it occurs is the
environment parameter `fails` — is caught, logged and converted into an error message;
`none` is returned on success. -/
def attemptGitOperation (fails : Bool) (operation : GitAction) (revision : String) :
    Option String :=
  if fails then some (attemptErrorText operation revision) else none

/-- The loop of `ModulesService.git_operate_modules` (modules_service.py lines
218-227), as a recursion over the enabled-modules list.  The first component is the
list of module names whose git action was attempted, in order; the second is either
the collected error map (`Except.ok`) or the message of the `ValueError` raised for a
module missing from the manifest (`Except.error`), which discards every error
collected so far.  `fails` tells per module name whether the underlying git action
raises `ProcessExecutionError`. -/
def gitOperateModulesLoop (fails : String → Bool) (operation : GitAction)
    (manifestModules : List (String × String)) :
    List EvgModule → List String × Except String (List (String × String))
  | [] => ([], Except.ok [])
  | m :: rest =>
    match manifestModules.lookup m.name with
    | none => ([], Except.error ("Module not found in manifest: " ++ m.name))
    | some moduleRev =>
      let errmsg := attemptGitOperation (fails m.name) operation moduleRev
      let next := gitOperateModulesLoop fails operation manifestModules rest
      (m.name :: next.1,
        match next.2 with
        | Except.error e => Except.error e
        | Except.ok errs =>
          Except.ok
            (match errmsg with
            | some e => (m.name, e) :: errs
            | none => errs))

/-- `ModulesService.git_operate_modules` (modules_service.py lines 201-228).  The
`branch` argument of the python function is only forwarded to the git invocation and
does not influence the control flow modelled here. -/
def gitOperateModules (fails : String → Bool) (operation : GitAction)
    (manifest : Manifest) (enabledModules : List EvgModule) :
    List String × Except String (List (String × String)) :=
  match manifest.modules with
  | none => ([], Except.error "Modules not found in manifest")
  | some manifestModules =>
    gitOperateModulesLoop fails operation manifestModules enabledModules

/-- `ModulesService.git_operate_base` (modules_service.py lines 230-244).  The first
component records the repositories whose git action was attempted, in order: `none`
for the base repository, `some name` for a module.  The base error, when present, is
inserted under key `"BASE"` after the module entries (python dict insertion order). -/
def gitOperateBase (failsBase : Bool) (fails : String → Bool) (operation : GitAction)
    (revision : String) (manifest : Manifest) (enabledModules : List EvgModule) :
    List (Option String) × Except String (List (String × String)) :=
  let errmsg := attemptGitOperation failsBase operation revision
  let next := gitOperateModules fails operation manifest enabledModules
  (none :: next.1.map some,
    match next.2 with
    | Except.error e => Except.error e
    | Except.ok errs =>
      Except.ok
        (match errmsg with
        | some e => errs ++ [("BASE", e)]
        | none => errs))

/-! ## Branch flows (`GitBranchService`) -/

/-- Modelled from the spec: `UpdateStrategy` belongs to the newer `ModulesService`
that is absent from the source snapshot (it is imported by `git_branch_service.py`):
the caller-selected strategy for moving a module working tree — checkout (default),
rebase, or merge. -/
inductive UpdateStrategy where
  | checkout
  | rebase
  | merge
  deriving DecidableEq

/-- One VCS invocation observed during the branch flows; `dir = none` means the
invocation ran in the base repository's working directory. -/
inductive GitEvent where
  | fetch (dir : Option String)
  | rebaseCall (onto : String) (dir : Option String)
  | mergeCall (revision : String) (dir : Option String)
  | pullCall (rebase : Bool) (dir : Option String)
  | checkoutCall (revision : String) (dir : Option String)
  deriving DecidableEq

/-- Modelled from the spec: `ModulesService.sync_all_modules` is absent from the
source snapshot (only its callers and its mocks in the tests appear).  Per spec
section 4.3, syncing one module fetches the module's remote and then moves its working
tree to the manifest-pinned revision (`pinned`) using the selected strategy, and
`sync_all_modules` does this for every enabled module in order.  The result is the
sequence of VCS invocations performed. -/
def syncAllModules (strategy : UpdateStrategy) (pinned : String → String)
    (enabledModules : List EvgModule) : List GitEvent :=
  (enabledModules.map (fun m =>
    let dir := some (m.prefixDir ++ "/" ++ m.name)
    [GitEvent.fetch dir,
      match strategy with
      | UpdateStrategy.checkout => GitEvent.checkoutCall (pinned m.name) dir
      | UpdateStrategy.rebase => GitEvent.rebaseCall (pinned m.name) dir
      | UpdateStrategy.merge => GitEvent.mergeCall (pinned m.name) dir])).flatten

/-- `GitBranchService.update_branch` (git_branch_service.py lines 85-109) as its
sequence of VCS invocations: fetch every repository returned by
`collect_repositories` (each enabled module and the base), then rebase or merge the
base repository onto `branch`, then sync every enabled module with the matching
strategy. -/
def updateBranchEvents (branch : String) (rebase : Bool) (pinned : String → String)
    (enabledModules : List EvgModule) (baseBranch : String) : List GitEvent :=
  ((collectRepositories enabledModules baseBranch).map
      (fun repo => GitEvent.fetch repo.directory)) ++
    (if rebase then [GitEvent.rebaseCall branch none]
      else [GitEvent.mergeCall branch none]) ++
    syncAllModules (if rebase then UpdateStrategy.rebase else UpdateStrategy.merge)
      pinned enabledModules

/-- `GitBranchService.pull` (git_branch_service.py lines 111-125) as its sequence of
VCS invocations: pull in the base repository, then sync every enabled module with the
matching strategy. -/
def pullEvents (rebase : Bool) (pinned : String → String)
    (enabledModules : List EvgModule) : List GitEvent :=
  GitEvent.pullCall rebase none ::
    syncAllModules (if rebase then UpdateStrategy.rebase else UpdateStrategy.merge)
      pinned enabledModules

/-- Is this event the base repository's merge/rebase/pull call? -/
def GitEvent.isBaseOp : GitEvent → Bool
  | .rebaseCall _ none => true
  | .mergeCall _ none => true
  | .pullCall _ none => true
  | _ => false

/-- Is this event a fetch or sync step inside a module directory? -/
def GitEvent.isModuleCall : GitEvent → Bool
  | .fetch (some _) => true
  | .rebaseCall _ (some _) => true
  | .mergeCall _ (some _) => true
  | .pullCall _ (some _) => true
  | .checkoutCall _ (some _) => true
  | _ => false

/-- The ordering property claimed for the branch flows: in the observed call sequence,
every base merge/rebase/pull call occurs before every module fetch/sync call —
equivalently, no base operation appears after a module call. -/
def basePrecedesModuleCalls : List GitEvent → Bool
  | [] => true
  | e :: rest =>
    (if e.isModuleCall then rest.all (fun x => !x.isBaseOp) else true) &&
      basePrecedesModuleCalls rest

/-! ## Pull-request creation (`PullRequestService`) -/

/-- `PR_PREFIX` from `emm/services/pull_request_service.py`. -/
def PR_PREFIX : String :=
  "This code review is spread across multiple repositories. Here are the other " ++
    "Pull Requests associated with the code review:"

/-- `PullRequest` from `emm/services/pull_request_service.py`. -/
structure PullRequest where
  name : String
  link : String
  deriving DecidableEq

/-- `PullRequest.pr_comment` (pull_request_service.py lines 30-32). -/
def PullRequest.prComment (pr : PullRequest) : String :=
  "* [" ++ pr.name ++ "](" ++ pr.link ++ ")"

/-- `PullRequestService.create_comment` (pull_request_service.py lines 195-205):
the comment for the repository called `name`, linking every other created PR. -/
def createComment (prList : List PullRequest) (name : String) : String :=
  PR_PREFIX ++ "\n" ++
    String.intercalate "\n"
      ((prList.filter (fun pr => pr.name != name)).map PullRequest.prComment)

/-- The externally observable behaviour of `PullRequestService.create_pull_request`:
which repositories were pushed, which pull requests were created (keyed by repository
name, as in the python dict), and which comments were posted (PR url paired with
comment body). -/
structure PrTrace where
  pushed : List String
  created : List (String × PullRequest)
  comments : List (String × String)
  deriving DecidableEq

/-- `PullRequestService.create_pull_request` (pull_request_service.py lines 94-111)
together with `push_changes_to_remote` (lines 122-130), `create_prs` (lines 132-148)
and `annotate_prs` (lines 150-167).  `hasChanges` is `repo_has_changes`
(lines 207-215), the non-empty-diff check against the target branch; `mkLink` is the
URL the code-host CLI returns for the PR created in a repository.  The python dict
`pr_links` is modelled as an association list (faithful when repository names are
distinct, the invariant of the data model); `annotate_prs` posts a comment per changed
repository only when more than one repository changed, looking its PR up by name. -/
def createPullRequest (hasChanges : Repository → Bool) (mkLink : String → String)
    (repos : List Repository) : PrTrace :=
  let changedRepos := repos.filter hasChanges
  let prLinks := changedRepos.map (fun r => (r.name, PullRequest.mk r.name (mkLink r.name)))
  let comments :=
    if 1 < changedRepos.length then
      changedRepos.map (fun r =>
        (((prLinks.lookup r.name).getD (PullRequest.mk r.name "")).link,
          createComment (prLinks.map Prod.snd) r.name))
    else []
  { pushed := changedRepos.map (fun r => r.name)
    created := prLinks
    comments := comments }

/-! ## Module enabling (`ModulesService.enable`) -/

/-- A filesystem/VCS mutation performed by `ModulesService.enable`
(modules_service.py lines 66-95). -/
inductive FsAction where
  | mkdirs (dir : String)
  | clone (repoName remoteRepo modulesDir branch : String)
  | createSymlink (target source : String)
  | syncModule (moduleName : String)
  deriving DecidableEq

/-- `ModulesService.enable` (modules_service.py lines 66-95): the list of mutations
performed, in order, and the outcome.  `pathExists` is `FileService.path_exists`
(file_service.py lines 32-35), also used for the direct `module_location.exists()`
check; `repositoryName` stands for the external `module_data.get_repository_name()`;
`module_location.resolve()` is taken as the identity. -/
def enable (pathExists : String → Bool) (modulesDir : String) (repositoryName : String)
    (moduleName : String) (moduleData : EvgModule) (syncCommit : Bool) :
    List FsAction × Except String Unit :=
  let moduleLocation := modulesDir ++ "/" ++ repositoryName
  let targetDir := moduleData.prefixDir
  let mkdirActions :=
    if pathExists targetDir then [] else [FsAction.mkdirs targetDir]
  let targetLocation := targetDir ++ "/" ++ moduleName
  if pathExists targetLocation then
    (mkdirActions,
      Except.error ("Module " ++ moduleName ++ " already exists at " ++ targetLocation))
  else
    let cloneActions :=
      if pathExists moduleLocation then []
      else [FsAction.clone repositoryName moduleData.repo modulesDir moduleData.branch]
    (mkdirActions ++ cloneActions ++
        [FsAction.createSymlink targetLocation moduleLocation] ++
        (if syncCommit then [FsAction.syncModule moduleName] else []),
      Except.ok ())

/-! ## Pushing a branch (`GitProxy` / `ModulesService`) -/

/-- `PROTECTED_BRANCHES`, identical in `emm/clients/git_proxy.py` and
`emm/services/modules_service.py`. -/
def PROTECTED_BRANCHES : List String := ["main", "master"]

/-- `GitProxy.push_branch_to_remote` (git_proxy.py lines 294-313): raises `UsageError`
when the current branch is protected, otherwise runs `git push -u origin HEAD`,
returned here as the executed argument list.  `dirDisplay` is the directory rendered
into the error message by `_determine_directory`. -/
def proxyPushBranchToRemote (currentBranch : String) (dirDisplay : String) :
    Except String (List String) :=
  if currentBranch ∈ PROTECTED_BRANCHES then
    Except.error ("Refusing to push changes to protected branch \x27" ++ currentBranch ++
      "\x27 in directory \x27" ++ dirDisplay ++ "\x27")
  else Except.ok ["push", "-u", "origin", "HEAD"]

/-- `ModulesService.push_branch_to_remote` (modules_service.py lines 304-315): raises
`ValueError` when the current branch is protected; otherwise the underlying push runs
iff the branch does not already exist on the remote.  Returns whether a push command
was executed. -/
def modulesPushBranchToRemote (currentBranch : String) (existsOnRemote : Bool) :
    Except String Bool :=
  if currentBranch ∈ PROTECTED_BRANCHES then
    Except.error "Cannot push unreviewed modification to master."
  else Except.ok (!existsOnRemote)

/-! ## Theorems -/

/-- C9: `has_commitable_change` with `add = true` returns true iff some short-status
line does not start with `"??"`; with `add = false` it returns true iff some line
neither starts with `"??"` nor has a blank first status column. -/
theorem hasCommitableChange_characterization (statusLines : List String) :
    (hasCommitableChange true statusLines = true ↔
      ∃ line ∈ statusLines, line.startsWith "??" = false) ∧
    (hasCommitableChange false statusLines = true ↔
      ∃ line ∈ statusLines,
        line.startsWith "??" = false ∧ line.startsWith " " = false) := by
  constructor
  · simp [hasCommitableChange, List.length_pos_iff_exists_mem, List.mem_filter]
  · simp only [hasCommitableChange, if_neg Bool.false_ne_true, decide_eq_true_eq,
      List.length_pos_iff_exists_mem, List.mem_filter, Bool.not_eq_true',
      Bool.if_false_left]
    constructor
    · rintro ⟨a, ⟨⟨ha, h1⟩, h2⟩⟩
      exact ⟨a, ha, h1, h2⟩
    · rintro ⟨a, ha, h1, h2⟩
      exact ⟨a, ⟨ha, h1⟩, h2⟩

/-- C7: the fanned-out add operation passes to the underlying VCS exactly the files
that appear both in the repository's touched-file list (short-status lines with the
two-character prefix removed and stripped) and in the gitignore-aware `ls-files`
listing, preserving the order of the touched-file list; the restore operation computes
the same list. -/
theorem addToRepo_intersection (statusLines filesInRepo : List String) :
    (∀ f, f ∈ addToRepo statusLines filesInRepo ↔
      f ∈ getTouchedFiles statusLines ∧ f ∈ filesInRepo) ∧
    (addToRepo statusLines filesInRepo).Sublist (getTouchedFiles statusLines) ∧
    restoreFromRepo statusLines filesInRepo = addToRepo statusLines filesInRepo := by
  refine ⟨fun f => ?_, List.filter_sublist _, rfl⟩
  simp [addToRepo, List.mem_filter]

/-- C5: resolving a module's pinned revision fails with the
`"Modules not found in manifest"` error whenever the manifest has no modules section,
for any requested module; fails with the distinct
`"Module not found in manifest: <name>"` error when the section exists but lacks the
module; the two messages are distinguishable; and a revision is only ever produced
from an actual manifest entry, never defaulted. -/
theorem resolveModuleRevision_precision (manifest : Manifest) (moduleName : String) :
    (manifest.modules = none →
      resolveModuleRevision manifest moduleName =
        Except.error "Modules not found in manifest") ∧
    (∀ mm, manifest.modules = some mm → mm.lookup moduleName = none →
      resolveModuleRevision manifest moduleName =
        Except.error ("Module not found in manifest: " ++ moduleName)) ∧
    ("Module not found in manifest: " ++ moduleName ≠
      "Modules not found in manifest") ∧
    (∀ rev, resolveModuleRevision manifest moduleName = Except.ok rev →
      ∃ mm, manifest.modules = some mm ∧ mm.lookup moduleName = some rev) := by
  refine ⟨fun h => ?_, fun mm hm hl => ?_, fun h => ?_, fun rev h => ?_⟩
  · simp [resolveModuleRevision, h]
  · simp [resolveModuleRevision, hm, hl]
  · have hlen := congrArg String.length h
    rw [String.length_append] at hlen
    have h1 : ("Module not found in manifest: ").length = 30 := rfl
    have h2 : ("Modules not found in manifest").length = 29 := rfl
    omega
  · cases hm : manifest.modules with
    | none => simp [resolveModuleRevision, hm] at h
    | some mm =>
      cases hl : mm.lookup moduleName with
      | none => simp [resolveModuleRevision, hm, hl] at h
      | some r =>
        simp [resolveModuleRevision, hm, hl] at h
        exact ⟨mm, rfl, by rw [hl, h]⟩

/-- C5 witness: concrete instances of both failure kinds. -/
theorem resolveModuleRevision_precision_witness :
    resolveModuleRevision ⟨none⟩ "C" = Except.error "Modules not found in manifest" ∧
    resolveModuleRevision ⟨some [("A", "rev1"), ("B", "rev2")]⟩ "C" =
      Except.error ("Module not found in manifest: " ++ "C") := by
  refine ⟨(resolveModuleRevision_precision ⟨none⟩ "C").1 rfl, ?_⟩
  exact (resolveModuleRevision_precision ⟨some [("A", "rev1"), ("B", "rev2")]⟩
    "C").2.1 [("A", "rev1"), ("B", "rev2")] rfl (by decide)

/-- C8: for any repository state, a protected current branch makes both the low-level
`GitProxy.push_branch_to_remote` and the module-level
`ModulesService.push_branch_to_remote` raise with no push command executed; and
whenever either level reports a push, the current branch is not protected. -/
theorem pushBranchToRemote_protected_guard (currentBranch dirDisplay : String)
    (existsOnRemote : Bool) :
    (currentBranch ∈ PROTECTED_BRANCHES →
      (∀ cmd, proxyPushBranchToRemote currentBranch dirDisplay ≠ Except.ok cmd) ∧
      (∀ b, modulesPushBranchToRemote currentBranch existsOnRemote ≠ Except.ok b)) ∧
    (∀ cmd, proxyPushBranchToRemote currentBranch dirDisplay = Except.ok cmd →
      currentBranch ∉ PROTECTED_BRANCHES) ∧
    (modulesPushBranchToRemote currentBranch existsOnRemote = Except.ok true →
      currentBranch ∉ PROTECTED_BRANCHES) := by
  refine ⟨fun h => ⟨fun cmd => ?_, fun b => ?_⟩, fun cmd h hmem => ?_, fun h hmem => ?_⟩
  · simp [proxyPushBranchToRemote, h]
  · simp [modulesPushBranchToRemote, h]
  · simp [proxyPushBranchToRemote, hmem] at h
  · simp [modulesPushBranchToRemote, hmem] at h

/-- C8 witness: pushing from `main` is refused at both levels. -/
theorem pushBranchToRemote_protected_guard_witness :
    proxyPushBranchToRemote "main" "/repo" ≠
      Except.ok ["push", "-u", "origin", "HEAD"] ∧
    modulesPushBranchToRemote "main" false ≠ Except.ok true := by
  have h := pushBranchToRemote_protected_guard "main" "/repo" false
  exact ⟨(h.1 (by decide)).1 _, (h.1 (by decide)).2 _⟩

/-- Helper: a filter after a map is a map after a filter of composed predicate. -/
theorem filter_map_comm {α β : Type} (f : α → β) (p : β → Bool) (l : List α) :
    (l.map f).filter p = (l.filter (fun a => p (f a))).map f := by
  induction l with
  | nil => rfl
  | cons a l ih =>
    simp only [List.map_cons, List.filter_cons]
    cases h : p (f a) <;> simp [h, ih]

/-- C2 counterexample: with no enabled modules and a clean base repository (empty
short status), the commit operation commits nothing at all — in particular the base
repository is not committed unconditionally, contrary to the claim. -/
theorem commitAll_clean_base_not_committed :
    commitAll (some "msg") false false (fun _ => []) [] "main" = [] ∧
    BASE_REPO ∉ commitAll (some "msg") false false (fun _ => []) [] "main" := by
  decide

/-- C2 amended (the base repository is not committed unconditionally): the commit
operation treats the base repository like any module — every repository, the base
included, is committed iff it has a committable change, repositories without changes
are silently skipped, and the returned names are exactly the committed repositories:
changed modules first, in order, then the base repository when it changed. -/
theorem commitAll_selects_changed (message : Option String) (amend add : Bool)
    (status : Repository → List String) (enabledModules : List EvgModule)
    (baseBranch : String) :
    commitAll message amend add status enabledModules baseBranch =
      ((enabledModules.filter
          (fun m => hasCommitableChange add (status (Repository.fromModule m)))).map
        (fun m => m.name)) ++
      (if hasCommitableChange add (status (Repository.baseRepo baseBranch)) then
        [BASE_REPO] else []) := by
  unfold commitAll collectRepositories
  rw [List.filter_append, List.map_append]
  congr 1
  · rw [filter_map_comm]
    simp [List.map_map, Function.comp_def, Repository.fromModule]
  · cases h : hasCommitableChange add (status (Repository.baseRepo baseBranch)) <;>
      simp only [Repository.baseRepo, BASE_REPO] at h <;>
      simp [h, List.filter_cons, Repository.baseRepo, BASE_REPO]

/-- C6: when the module's link path already exists, `enable` fails with the
already-exists error and performs no filesystem mutation whatsoever — the
parent-directory creation step is unreachable because existence of the link path
implies existence of its parent directory, and neither the clone nor the symlink
creation is reached. -/
theorem enable_already_enabled_no_mutation (pathExists : String → Bool)
    (modulesDir repositoryName moduleName : String) (moduleData : EvgModule)
    (syncCommit : Bool)
    (hparent : pathExists (moduleData.prefixDir ++ "/" ++ moduleName) = true →
      pathExists moduleData.prefixDir = true)
    (hexists : pathExists (moduleData.prefixDir ++ "/" ++ moduleName) = true) :
    enable pathExists modulesDir repositoryName moduleName moduleData syncCommit =
      ([], Except.error ("Module " ++ moduleName ++ " already exists at " ++
        (moduleData.prefixDir ++ "/" ++ moduleName))) := by
  simp [enable, hexists, hparent hexists]

/-- C6 witness: a concrete filesystem where the link path `pre/m1` exists. -/
theorem enable_already_enabled_no_mutation_witness :
    enable (fun _ => true) "mods" "repo1" "m1" ⟨"m1", "pre", "url", "main"⟩ true =
      ([], Except.error ("Module " ++ "m1" ++ " already exists at " ++
        ("pre" ++ "/" ++ "m1"))) :=
  enable_already_enabled_no_mutation (fun _ => true) "mods" "repo1" "m1"
    ⟨"m1", "pre", "url", "main"⟩ true (fun _ => rfl) rfl

/-- Helper for C1: when every module in the list has a manifest entry, the fan-out
loop attempts every module and collects exactly one error per failing module, keyed by
the module name, in iteration order. -/
theorem gitOperateModulesLoop_all_found (fails : String → Bool) (operation : GitAction)
    (manifestModules : List (String × String)) (enabledModules : List EvgModule)
    (hfound : ∀ m ∈ enabledModules, (manifestModules.lookup m.name).isSome = true) :
    gitOperateModulesLoop fails operation manifestModules enabledModules =
      (enabledModules.map (fun m => m.name),
        Except.ok ((enabledModules.filter (fun m => fails m.name)).map
          (fun m => (m.name,
            attemptErrorText operation ((manifestModules.lookup m.name).getD ""))))) := by
  induction enabledModules with
  | nil => rfl
  | cons m rest ih =>
    have hm := hfound m (List.mem_cons_self m rest)
    obtain ⟨rev, hrev⟩ := Option.isSome_iff_exists.mp hm
    have hrest := ih (fun x hx => hfound x (List.mem_cons_of_mem m hx))
    simp only [gitOperateModulesLoop, hrev, hrest]
    cases hf : fails m.name <;>
      simp [attemptGitOperation, hf, List.filter_cons, hrev]

/-- C1: with every enabled module present in the fetched manifest, process-execution
failures of the git action on any subset of the repositories are caught: the action is
attempted on the base repository and on every enabled module, the call returns
normally, and the returned error map holds exactly one entry per failed repository —
keyed by module name, `"BASE"` for the base repository — and none for the
successes. -/
theorem gitOperateBase_partial_failure (failsBase : Bool) (fails : String → Bool)
    (operation : GitAction) (revision : String)
    (manifestModules : List (String × String)) (enabledModules : List EvgModule)
    (hfound : ∀ m ∈ enabledModules, (manifestModules.lookup m.name).isSome = true) :
    gitOperateBase failsBase fails operation revision ⟨some manifestModules⟩
        enabledModules =
      (none :: enabledModules.map (fun m => some m.name),
        Except.ok
          ((enabledModules.filter (fun m => fails m.name)).map
              (fun m => (m.name,
                attemptErrorText operation ((manifestModules.lookup m.name).getD ""))) ++
            if failsBase then [("BASE", attemptErrorText operation revision)]
            else [])) := by
  simp only [gitOperateBase, gitOperateModules,
    gitOperateModulesLoop_all_found fails operation manifestModules enabledModules
      hfound]
  cases failsBase <;> simp [attemptGitOperation, List.map_map, Function.comp_def]

/-- C1 witness: two enabled modules, the base git action and the first module's git
action fail; the call returns normally with exactly those two error entries. -/
theorem gitOperateBase_partial_failure_witness :
    (gitOperateBase true (fun n => n == "m1") GitAction.checkout "rev0"
        ⟨some [("m1", "r1"), ("m2", "r2")]⟩
        [⟨"m1", "p1", "u1", "b1"⟩, ⟨"m2", "p2", "u2", "b2"⟩]).2 =
      Except.ok [("m1", attemptErrorText GitAction.checkout "r1"),
        ("BASE", attemptErrorText GitAction.checkout "rev0")] := by
  rw [gitOperateBase_partial_failure true (fun n => n == "m1") GitAction.checkout
    "rev0" [("m1", "r1"), ("m2", "r2")]
    [⟨"m1", "p1", "u1", "b1"⟩, ⟨"m2", "p2", "u2", "b2"⟩] (by decide)]
  rfl

/-- Helper for C10: the fan-out loop stops at the first module missing from the
manifest: modules before it are attempted, the missing one and everything after it are
not, and the errors collected so far are discarded in favour of the raised error. -/
theorem gitOperateModulesLoop_missing (fails : String → Bool) (operation : GitAction)
    (manifestModules : List (String × String)) (pre rest : List EvgModule)
    (missing : EvgModule)
    (hpre : ∀ m ∈ pre, (manifestModules.lookup m.name).isSome = true)
    (hmissing : manifestModules.lookup missing.name = none) :
    gitOperateModulesLoop fails operation manifestModules (pre ++ missing :: rest) =
      (pre.map (fun m => m.name),
        Except.error ("Module not found in manifest: " ++ missing.name)) := by
  induction pre with
  | nil => simp [gitOperateModulesLoop, hmissing]
  | cons m pre ih =>
    have hm := hpre m (List.mem_cons_self m pre)
    obtain ⟨rev, hrev⟩ := Option.isSome_iff_exists.mp hm
    have hrest := ih (fun x hx => hpre x (List.mem_cons_of_mem m hx))
    simp [gitOperateModulesLoop, hrev, hrest]

/-- C10: when the fetched manifest has no modules section, or some enabled module is
absent from it, `git_operate_base` raises: modules after the missing one are not
processed, and every error collected so far — the base repository's `"BASE"` entry
included — is discarded, so the caller receives no error map at all. -/
theorem gitOperateBase_manifest_failure_aborts (failsBase : Bool)
    (fails : String → Bool) (operation : GitAction) (revision : String)
    (manifestModules : List (String × String)) (pre rest : List EvgModule)
    (missing : EvgModule)
    (hpre : ∀ m ∈ pre, (manifestModules.lookup m.name).isSome = true)
    (hmissing : manifestModules.lookup missing.name = none) :
    (∀ enabledModules,
      gitOperateBase failsBase fails operation revision ⟨none⟩ enabledModules =
        ([none], Except.error "Modules not found in manifest")) ∧
    gitOperateBase failsBase fails operation revision ⟨some manifestModules⟩
        (pre ++ missing :: rest) =
      (none :: pre.map (fun m => some m.name),
        Except.error ("Module not found in manifest: " ++ missing.name)) := by
  constructor
  · intro mods
    simp [gitOperateBase, gitOperateModules]
  · simp only [gitOperateBase, gitOperateModules,
      gitOperateModulesLoop_missing fails operation manifestModules pre rest missing
        hpre hmissing]
    simp [List.map_map, Function.comp_def]

/-- C10 witness: the base action and the one resolvable module both fail, the second
module is missing from the manifest; nothing after the missing module is attempted and
the collected errors (including `"BASE"`) are discarded. -/
theorem gitOperateBase_manifest_failure_aborts_witness :
    gitOperateBase true (fun _ => true) GitAction.merge "rev0" ⟨some [("m1", "r1")]⟩
        [⟨"m1", "p1", "u1", "b1"⟩, ⟨"m2", "p2", "u2", "b2"⟩] =
      ([none, some "m1"],
        Except.error ("Module not found in manifest: " ++ "m2")) := by
  have h := (gitOperateBase_manifest_failure_aborts true (fun _ => true) GitAction.merge
    "rev0" [("m1", "r1")] [⟨"m1", "p1", "u1", "b1"⟩] [] ⟨"m2", "p2", "u2", "b2"⟩
    (by decide) (by decide)).2
  simpa using h

/-- Helper for C3: a call sequence containing no base operation trivially satisfies
the base-before-modules ordering. -/
theorem basePrecedes_of_no_baseOp (l : List GitEvent)
    (h : l.all (fun e => !e.isBaseOp) = true) : basePrecedesModuleCalls l = true := by
  induction l with
  | nil => rfl
  | cons e rest ih =>
    simp only [List.all_cons, Bool.and_eq_true] at h
    simp only [basePrecedesModuleCalls, Bool.and_eq_true]
    refine ⟨?_, ih h.2⟩
    cases he : e.isModuleCall <;> simp [he, h.2]

/-- Helper for C3: every event of a module sync runs in a module directory, so none
of them is a base operation. -/
theorem syncAllModules_no_baseOp (strategy : UpdateStrategy) (pinned : String → String)
    (enabledModules : List EvgModule) :
    (syncAllModules strategy pinned enabledModules).all (fun e => !e.isBaseOp) =
      true := by
  induction enabledModules with
  | nil => rfl
  | cons m rest ih =>
    simp only [syncAllModules, List.map_cons, List.flatten_cons, List.all_append]
        at ih ⊢
    refine (Bool.and_eq_true _ _).mpr ⟨?_, ih⟩
    cases strategy <;> rfl

/-- C3 counterexample: with one enabled module, the update-current-branch flow (merge
strategy) fetches the module before the base repository's merge call, so the base
merge/rebase call does not precede every module fetch call in the observed
sequence. -/
theorem updateBranch_fetch_before_baseOp_counterexample :
    basePrecedesModuleCalls
      (updateBranchEvents "master" false (fun _ => "r1") [⟨"m1", "p", "u", "b"⟩]
        "main") = false := by
  rfl

/-- C3 amended (module fetches precede the base operation in the update flow): in the
pull flow, the base repository's pull call occurs before every enabled module's
fetch/sync call; in the update-current-branch flow, the first calls are the prefetch
of every repository (each enabled module, then the base), and from the base
merge/rebase call onward the base call occurs before every module sync call — for
both strategies and every set of enabled modules. -/
theorem baseOp_before_module_sync (branch : String) (rebase : Bool)
    (pinned : String → String) (enabledModules : List EvgModule)
    (baseBranch : String) :
    basePrecedesModuleCalls (pullEvents rebase pinned enabledModules) = true ∧
    (updateBranchEvents branch rebase pinned enabledModules baseBranch).take
        (enabledModules.length + 1) =
      (collectRepositories enabledModules baseBranch).map
        (fun repo => GitEvent.fetch repo.directory) ∧
    basePrecedesModuleCalls
      ((updateBranchEvents branch rebase pinned enabledModules baseBranch).drop
        (enabledModules.length + 1)) = true := by
  have hlen : ((collectRepositories enabledModules baseBranch).map
      (fun repo => GitEvent.fetch repo.directory)).length =
        enabledModules.length + 1 := by
    simp [collectRepositories]
  have hsync := syncAllModules_no_baseOp
    (if rebase then UpdateStrategy.rebase else UpdateStrategy.merge) pinned
    enabledModules
  refine ⟨?_, ?_, ?_⟩
  · simp only [pullEvents, basePrecedesModuleCalls]
    have h1 : (GitEvent.pullCall rebase none).isModuleCall = false := rfl
    simp [h1, basePrecedes_of_no_baseOp _ hsync]
  · rw [updateBranchEvents, List.append_assoc, List.take_left' hlen]
  · rw [updateBranchEvents, List.append_assoc, List.drop_left' hlen]
    cases rebase <;>
      simp only [Bool.false_eq_true, if_false, if_true, List.singleton_append,
        basePrecedesModuleCalls] <;>
      exact (Bool.and_eq_true _ _).mpr
        ⟨rfl, basePrecedes_of_no_baseOp _
          (syncAllModules_no_baseOp _ pinned enabledModules)⟩

/-- Helper for C4: looking a name up in the association list keyed by repository name
finds the entry built from that name. -/
theorem lookup_name_keyed {β : Type} (g : String → β) (l : List Repository)
    (n : String) (hn : n ∈ l.map Repository.name) :
    (l.map (fun r => (r.name, g r.name))).lookup n = some (g n) := by
  induction l with
  | nil => simp at hn
  | cons r rest ih =>
    simp only [List.map_cons, List.mem_cons] at hn
    by_cases h : n = r.name
    · subst h
      simp [List.lookup]
    · have hrest : n ∈ rest.map Repository.name := hn.resolve_left h
      have hb : (n == r.name) = false := by simpa using h
      simp [List.lookup, hb, ih hrest]

/-- C4: pull-request creation pushes and creates exactly one PR per repository with a
non-empty diff against its target branch, and does nothing for the others; with
exactly one created PR no comment is posted; with two or more, each created PR
receives exactly one comment whose linked PRs are exactly all the other created PRs
and never its own. -/
theorem createPullRequest_cross_links (repos : List Repository)
    (hasChanges : Repository → Bool) (mkLink : String → String)
    (hnd : (repos.map Repository.name).Nodup) :
    (createPullRequest hasChanges mkLink repos).pushed =
      (repos.filter hasChanges).map Repository.name ∧
    (createPullRequest hasChanges mkLink repos).created.map Prod.fst =
      (repos.filter hasChanges).map Repository.name ∧
    (∀ r ∈ repos, hasChanges r = false →
      r.name ∉ (createPullRequest hasChanges mkLink repos).pushed) ∧
    ((repos.filter hasChanges).length = 1 →
      (createPullRequest hasChanges mkLink repos).comments = []) ∧
    (1 < (repos.filter hasChanges).length →
      (createPullRequest hasChanges mkLink repos).comments =
        (createPullRequest hasChanges mkLink repos).created.map (fun p =>
          (p.2.link,
            createComment
              ((createPullRequest hasChanges mkLink repos).created.map Prod.snd)
              p.1))) ∧
    (∀ p ∈ (createPullRequest hasChanges mkLink repos).created,
      p.2 ∉
        (((createPullRequest hasChanges mkLink repos).created.map Prod.snd).filter
          (fun pr => pr.name != p.1)) ∧
      ∀ q ∈ (createPullRequest hasChanges mkLink repos).created, q.1 ≠ p.1 →
        q.2 ∈
          (((createPullRequest hasChanges mkLink repos).created.map Prod.snd).filter
            (fun pr => pr.name != p.1))) := by
  refine ⟨rfl, ?_, ?_, ?_, ?_, ?_⟩
  · simp [createPullRequest, List.map_map, Function.comp_def]
  · intro r hr hfalse hmem
    simp only [createPullRequest, List.mem_map] at hmem
    obtain ⟨r', hr', hname⟩ := hmem
    have hr'repos := (List.mem_filter.mp hr').1
    have heq : r' = r := List.inj_on_of_nodup_map hnd hr'repos hr hname
    rw [heq] at hr'
    rw [List.mem_filter] at hr'
    simp [hr'.2] at hfalse
  · intro hone
    simp [createPullRequest, hone]
  · intro hmore
    simp only [createPullRequest, if_pos hmore, List.map_map]
    refine List.map_congr_left (fun r hr => ?_)
    have hn : r.name ∈ (repos.filter hasChanges).map Repository.name :=
      List.mem_map_of_mem Repository.name hr
    rw [lookup_name_keyed (fun n => PullRequest.mk n (mkLink n))
      (repos.filter hasChanges) r.name hn]
    rfl
  · intro p hp
    simp only [createPullRequest, List.mem_map] at hp
    obtain ⟨r, hr, hpr⟩ := hp
    constructor
    · intro hmem
      rw [List.mem_filter] at hmem
      have hpname : p.2.name = p.1 := by rw [← hpr]
      rw [hpname] at hmem
      simp at hmem
    · intro q hq hne
      have hqmem : q.2 ∈
          (createPullRequest hasChanges mkLink repos).created.map Prod.snd :=
        List.mem_map_of_mem Prod.snd hq
      simp only [createPullRequest, List.mem_map] at hq
      obtain ⟨r', hr', hqr⟩ := hq
      have hqname : q.2.name = q.1 := by rw [← hqr]
      rw [List.mem_filter]
      refine ⟨hqmem, ?_⟩
      rw [hqname]
      simpa using hne

/-- C4 witness: three repositories of which two have changes; both are pushed and get
PRs. -/
theorem createPullRequest_cross_links_witness :
    (createPullRequest (fun r => r.name != "m1") (fun n => "url-" ++ n)
        [⟨"base", none, "main"⟩, ⟨"m1", some "d1", "b1"⟩,
          ⟨"m2", some "d2", "b2"⟩]).pushed = ["base", "m2"] := by
  rw [(createPullRequest_cross_links
    [⟨"base", none, "main"⟩, ⟨"m1", some "d1", "b1"⟩, ⟨"m2", some "d2", "b2"⟩]
    (fun r => r.name != "m1") (fun n => "url-" ++ n) (by decide)).1]
  rfl

end Emm
